import Mathlib

/-!
Shallow embedding of `src/collector.py` (bounty collector pipeline):
the dedup store (`pending` table), ingestion via `upsert_pending` and
`collect`, the digest selection / formatting / chunking algorithms, and
the delivery-commit protocol of `digest`.

Strings are modelled as Lean `String` / `List Char` (one `Char` per
Python code point).  Environment configuration read from globals in the
source is passed explicitly as a `Config` record; network transports are
oracles supplied as inputs; their observable calls are collected in an
effects record.
-/

namespace Collector

/-- Whitespace set stripped by Python `str.lstrip()` / `str.strip()`
(ASCII whitespace; the model restricts to the ASCII range). -/
def pyIsSpace (c : Char) : Bool :=
  c = ' ' || c = '\t' || c = '\n' || c = '\r' || c = '\x0b' || c = '\x0c'

/-- Model of `s.rfind("\n", 0, limit)` from `chunk_text`: the highest
index `i` with `i < limit`, `i < s.length` and `s[i] = '\n'`; `none`
encodes Python result `-1`. -/
def rfindNl (s : List Char) (limit : Nat) : Option Nat :=
  ((List.range (min limit s.length)).filter (fun i => s.get? i = some '\n')).getLast?

/-- The cut position chosen by one iteration of `chunk_text`:
`cut = s.rfind("\n", 0, limit); if cut <= 0: cut = limit`. -/
def cutOf (s : List Char) (limit : Nat) : Nat :=
  match rfindNl s limit with
  | some i => if i = 0 then limit else i
  | none => limit

/-- Fuel-indexed model of the `while s:` loop of `chunk_text`
(src/collector.py lines 38-49).  The loop consumes at least one
character per iteration whenever `limit ≥ 1`, so fuel `s.length`
suffices; for `limit = 0` the Python loop diverges and the model
returns after exhausting fuel. -/
def chunkTextFuel : Nat → List Char → Nat → List (List Char)
  | 0, _, _ => []
  | Nat.succ fuel, s, limit =>
    if s = [] then []
    else if s.length ≤ limit then [s]
    else
      s.take (cutOf s limit) ::
        chunkTextFuel fuel (List.dropWhile pyIsSpace (s.drop (cutOf s limit))) limit

/-- `chunk_text(text, limit)` from src/collector.py lines 38-49. -/
def chunk_text (s : List Char) (limit : Nat) : List (List Char) :=
  chunkTextFuel s.length s limit

/-- Interleave chunks with the whitespace runs trimmed at each cut
point: `glue2 [c0, c1, ...] [w0, w1, ...] = c0 ++ w0 ++ c1 ++ w1 ++ ...`
(used to state the chunking round-trip). -/
def glue2 : List (List Char) → List (List Char) → List Char
  | [], _ => []
  | _ :: _, [] => []
  | c :: cs, w :: ws => c ++ w ++ glue2 cs ws

example : chunk_text ("ab\ncd".data) 3 = ["ab".data, "cd".data] := by decide

example : chunk_text ("\nab".data) 2 = ["\na".data, "b".data] := by decide

example : chunk_text ("".data) 1 = [] := by decide

theorem rfindNl_lt (s : List Char) (limit i : Nat) (h : rfindNl s limit = some i) :
    i < limit ∧ i < s.length := by
  unfold rfindNl at h
  obtain ⟨hne, heq⟩ := List.mem_getLast?_eq_getLast (Option.mem_def.mpr h)
  have hmem : i ∈ (List.range (min limit s.length)).filter
      (fun i => decide (s.get? i = some '\n')) := heq ▸ List.getLast_mem hne
  have := List.mem_range.mp (List.mem_of_mem_filter hmem)
  omega

theorem rfindNl_newline (s : List Char) (limit i : Nat) (h : rfindNl s limit = some i) :
    s.get? i = some '\n' := by
  unfold rfindNl at h
  obtain ⟨hne, heq⟩ := List.mem_getLast?_eq_getLast (Option.mem_def.mpr h)
  have hmem : i ∈ (List.range (min limit s.length)).filter
      (fun i => decide (s.get? i = some '\n')) := heq ▸ List.getLast_mem hne
  exact of_decide_eq_true (List.mem_filter.mp hmem).2

theorem pairwise_lt_getLast?_ge {l : List Nat} (hp : l.Pairwise (· < ·)) :
    ∀ x ∈ l, ∀ y, l.getLast? = some y → x ≤ y := by
  induction l with
  | nil => intro x hx; simp at hx
  | cons a t ih =>
    intro x hx y hy
    rcases List.mem_cons.mp hx with rfl | hxt
    · cases t with
      | nil => simp at hy; omega
      | cons b u =>
        rw [List.getLast?_cons_cons] at hy
        have hby : b ≤ y := ih hp.of_cons b (List.mem_cons_self b u) y hy
        have hab : x < b := (List.pairwise_cons.mp hp).1 b (List.mem_cons_self b u)
        omega
    · cases t with
      | nil => simp at hxt
      | cons b u =>
        rw [List.getLast?_cons_cons] at hy
        exact ih hp.of_cons x hxt y hy

theorem rfindNl_last (s : List Char) (limit i : Nat) (h : rfindNl s limit = some i) :
    ∀ j, i < j → j < limit → s.get? j ≠ some '\n' := by
  intro j hij hjlim hnl
  by_cases hjlen : j < s.length
  · have hmem : j ∈ (List.range (min limit s.length)).filter
        (fun i => decide (s.get? i = some '\n')) := by
      refine List.mem_filter.mpr ⟨List.mem_range.mpr ?_, by simpa using hnl⟩
      omega
    have hp : ((List.range (min limit s.length)).filter
        (fun i => decide (s.get? i = some '\n'))).Pairwise (· < ·) :=
      (List.pairwise_lt_range _).filter _
    have := pairwise_lt_getLast?_ge hp j hmem i h
    omega
  · rw [List.get?_eq_none.mpr (by omega)] at hnl
    exact Option.noConfusion hnl

theorem rfindNl_none (s : List Char) (limit : Nat) (h : rfindNl s limit = none) :
    ∀ j, j < limit → s.get? j ≠ some '\n' := by
  intro j hj hnl
  by_cases hjlen : j < s.length
  · have hnil := List.getLast?_eq_none_iff.mp h
    have hmem : j ∈ (List.range (min limit s.length)).filter
        (fun i => decide (s.get? i = some '\n')) := by
      refine List.mem_filter.mpr ⟨List.mem_range.mpr ?_, by simpa using hnl⟩
      omega
    rw [hnil] at hmem
    simp at hmem
  · rw [List.get?_eq_none.mpr (by omega)] at hnl
    exact Option.noConfusion hnl

theorem cutOf_pos (s : List Char) (limit : Nat) (hl : 1 ≤ limit) : 1 ≤ cutOf s limit := by
  cases h : rfindNl s limit with
  | none => simp [cutOf, h]; omega
  | some i =>
    by_cases hi : i = 0
    · simp [cutOf, h, hi]; omega
    · simp [cutOf, h, hi]; omega

theorem cutOf_le (s : List Char) (limit : Nat) : cutOf s limit ≤ limit := by
  cases h : rfindNl s limit with
  | none => simp [cutOf, h]
  | some i =>
    have := rfindNl_lt s limit i h
    by_cases hi : i = 0
    · simp [cutOf, h, hi]
    · simp [cutOf, h, hi]; omega

theorem length_dropWhile_le {α : Type} (p : α → Bool) (l : List α) :
    (l.dropWhile p).length ≤ l.length := by
  induction l with
  | nil => simp
  | cons x xs ih =>
    rw [List.dropWhile_cons]
    by_cases h : p x = true
    · simp only [if_pos h]
      exact Nat.le_trans ih (by simp)
    · simp only [if_neg h]
      exact Nat.le_refl _

theorem chunkTextFuel_mem (limit : Nat) (hl : 1 ≤ limit) :
    ∀ fuel s, ∀ c ∈ chunkTextFuel fuel s limit, c ≠ [] ∧ c.length ≤ limit := by
  intro fuel
  induction fuel with
  | zero => intro s c hc; simp [chunkTextFuel] at hc
  | succ n ih =>
    intro s c hc
    by_cases hs : s = []
    · simp [chunkTextFuel, hs] at hc
    · by_cases hlen : s.length ≤ limit
      · simp [chunkTextFuel, hs, hlen] at hc
        subst hc
        constructor
        · exact hs
        · exact hlen
      · simp only [chunkTextFuel, if_neg hs, if_neg hlen, List.mem_cons] at hc
        rcases hc with rfl | hc
        · have hcut1 := cutOf_pos s limit hl
          have hcutle := cutOf_le s limit
          constructor
          · intro hnil
            have : (s.take (cutOf s limit)).length = 0 := by rw [hnil]; rfl
            rw [List.length_take] at this
            omega
          · rw [List.length_take]; omega
        · exact ih _ c hc

theorem chunkTextFuel_glue (limit : Nat) (hl : 1 ≤ limit) :
    ∀ fuel s, s.length ≤ fuel →
      ∃ ws : List (List Char), ws.length = (chunkTextFuel fuel s limit).length ∧
        (∀ w ∈ ws, ∀ c ∈ w, pyIsSpace c = true) ∧
        glue2 (chunkTextFuel fuel s limit) ws = s := by
  intro fuel
  induction fuel with
  | zero =>
    intro s hs
    have : s = [] := List.length_eq_zero.mp (Nat.le_zero.mp hs)
    subst this
    exact ⟨[], by simp [chunkTextFuel, glue2]⟩
  | succ n ih =>
    intro s hs
    by_cases hnil : s = []
    · subst hnil
      exact ⟨[], by simp [chunkTextFuel, glue2]⟩
    · by_cases hlen : s.length ≤ limit
      · refine ⟨[[]], ?_⟩
        simp [chunkTextFuel, hnil, hlen, glue2]
      · have hcut1 := cutOf_pos s limit hl
        have hdroplen : (List.dropWhile pyIsSpace (s.drop (cutOf s limit))).length ≤ n := by
          have h1 := length_dropWhile_le pyIsSpace (s.drop (cutOf s limit))
          have h2 : (s.drop (cutOf s limit)).length = s.length - cutOf s limit :=
            List.length_drop _ _
          omega
        obtain ⟨ws, hwlen, hwsp, hwglue⟩ :=
          ih (List.dropWhile pyIsSpace (s.drop (cutOf s limit))) hdroplen
        refine ⟨List.takeWhile pyIsSpace (s.drop (cutOf s limit)) :: ws, ?_, ?_, ?_⟩
        · simp [chunkTextFuel, hnil, hlen, hwlen]
        · intro w hw c hc
          rcases List.mem_cons.mp hw with rfl | hw2
          · exact List.mem_takeWhile_imp hc
          · exact hwsp w hw2 c hc
        · simp only [chunkTextFuel, if_neg hnil, if_neg hlen, glue2, hwglue]
          rw [List.append_assoc, List.takeWhile_append_dropWhile, List.take_append_drop]

theorem chunkTextFuel_count (limit : Nat) (hl : 1 ≤ limit) :
    ∀ fuel s, (chunkTextFuel fuel s limit).length ≤ s.length := by
  intro fuel
  induction fuel with
  | zero => intro s; simp [chunkTextFuel]
  | succ n ih =>
    intro s
    by_cases hnil : s = []
    · simp [chunkTextFuel, hnil]
    · by_cases hlen : s.length ≤ limit
      · simp only [chunkTextFuel, if_pos hnil, if_neg hnil, if_pos hlen, List.length_cons,
          List.length_nil]
        have : 0 < s.length := List.length_pos.mpr hnil
        omega
      · simp only [chunkTextFuel, if_neg hnil, if_neg hlen, List.length_cons]
        have h1 := ih (List.dropWhile pyIsSpace (s.drop (cutOf s limit)))
        have h2 := length_dropWhile_le pyIsSpace (s.drop (cutOf s limit))
        have h3 : (s.drop (cutOf s limit)).length = s.length - cutOf s limit :=
          List.length_drop _ _
        have hcut1 := cutOf_pos s limit hl
        omega

theorem chunk_text_head (s : List Char) (limit : Nat) (h : limit < s.length) :
    (chunk_text s limit).head? = some (s.take (cutOf s limit)) := by
  unfold chunk_text
  have hnil : s ≠ [] := by
    intro he; rw [he] at h; simp at h
  have hlen : ¬ s.length ≤ limit := by omega
  obtain ⟨n, hn⟩ : ∃ n, s.length = n + 1 := by
    cases he : s.length with
    | zero => rw [List.length_eq_zero] at he; exact absurd he hnil
    | succ m => exact ⟨m, rfl⟩
  rw [hn]
  simp [chunkTextFuel, hnil, hlen]

theorem chunk_text_short (s : List Char) (limit : Nat) (hs : s ≠ []) (hlen : s.length ≤ limit) :
    chunk_text s limit = [s] := by
  unfold chunk_text
  obtain ⟨n, hn⟩ : ∃ n, s.length = n + 1 := by
    cases he : s.length with
    | zero => rw [List.length_eq_zero] at he; exact absurd he hs
    | succ m => exact ⟨m, rfl⟩
  rw [hn]
  simp [chunkTextFuel, hs, hlen]

/-- C4 counterexample: the claim as stated fails on the code in two
places.  First, for `T = "\nab"` and `B = 2` the only newline in range
is at index 0, yet `chunk_text` hard-cuts at the limit (the `cut <= 0`
guard treats a newline at index 0 as absent), so the first fragment is
`"\na"`, not the backtrack-to-newline fragment `T[:0]`.  Second, for the
empty text (length `0 ≤ B`) the result is `[]`, not the single verbatim
fragment `[""]`. -/
theorem chunk_text_claim_cex :
    (rfindNl ("\nab".data) 2 = some 0 ∧
      (chunk_text ("\nab".data) 2).head? = some ("\na".data) ∧
      ("\na".data) ≠ ("\nab".data).take 0) ∧
    (("".data).length ≤ 1 ∧ chunk_text ("".data) 1 ≠ ["".data]) := by
  decide

/-- C4 (amended): for every text `T` and budget `B ≥ 1`, `chunk_text`
terminates with at most `|T|` fragments, each fragment is non-empty and
of length `≤ B`; interleaving the fragments with the whitespace runs
trimmed at each cut point reconstructs `T` exactly; non-empty text of
length `≤ B` yields the single verbatim fragment `[T]` (empty text
yields no fragments); and each cut backtracks to the last newline
strictly inside the slice when that newline is at a positive index,
while a missing newline or a newline only at index 0 yields a hard cut
at the limit. -/
theorem chunk_text_amended (s : List Char) (limit : Nat) (hl : 1 ≤ limit) :
    (∀ c ∈ chunk_text s limit, c ≠ [] ∧ c.length ≤ limit) ∧
    (chunk_text s limit).length ≤ s.length ∧
    (∃ ws : List (List Char), ws.length = (chunk_text s limit).length ∧
      (∀ w ∈ ws, ∀ c ∈ w, pyIsSpace c = true) ∧
      glue2 (chunk_text s limit) ws = s) ∧
    (s ≠ [] → s.length ≤ limit → chunk_text s limit = [s]) ∧
    chunk_text [] limit = [] ∧
    (limit < s.length →
      (∀ i, rfindNl s limit = some i → 0 < i →
        (chunk_text s limit).head? = some (s.take i) ∧ s.get? i = some '\n' ∧
        ∀ j, i < j → j < limit → s.get? j ≠ some '\n') ∧
      ((rfindNl s limit = none ∨ rfindNl s limit = some 0) →
        (chunk_text s limit).head? = some (s.take limit))) := by
  refine ⟨fun c hc => chunkTextFuel_mem limit hl s.length s c hc,
    chunkTextFuel_count limit hl s.length s,
    chunkTextFuel_glue limit hl s.length s (Nat.le_refl _),
    fun hs hlen => chunk_text_short s limit hs hlen,
    rfl, fun hlong => ⟨?_, ?_⟩⟩
  · intro i hi hipos
    have hcut : cutOf s limit = i := by
      simp [cutOf, hi, Nat.ne_of_gt hipos]
    refine ⟨?_, rfindNl_newline s limit i hi, rfindNl_last s limit i hi⟩
    have hh := chunk_text_head s limit hlong
    rw [hcut] at hh
    exact hh
  · intro hcase
    have hcut : cutOf s limit = limit := by
      rcases hcase with hc | hc
      · simp [cutOf, hc]
      · simp [cutOf, hc]
    have hh := chunk_text_head s limit hlong
    rw [hcut] at hh
    exact hh

/-- C4 witness: the amended chunking theorem instantiated at the
concrete text `"ab\ncd"` with budget 3. -/
theorem chunk_text_amended_witness :
    (∀ c ∈ chunk_text ("ab\ncd".data) 3, c ≠ [] ∧ c.length ≤ 3) ∧
    (chunk_text ("ab\ncd".data) 3).length ≤ ("ab\ncd".data).length ∧
    (∃ ws : List (List Char), ws.length = (chunk_text ("ab\ncd".data) 3).length ∧
      (∀ w ∈ ws, ∀ c ∈ w, pyIsSpace c = true) ∧
      glue2 (chunk_text ("ab\ncd".data) 3) ws = "ab\ncd".data) ∧
    ("ab\ncd".data ≠ [] → ("ab\ncd".data).length ≤ 3 →
      chunk_text ("ab\ncd".data) 3 = ["ab\ncd".data]) ∧
    chunk_text [] 3 = [] ∧
    (3 < ("ab\ncd".data).length →
      (∀ i, rfindNl ("ab\ncd".data) 3 = some i → 0 < i →
        (chunk_text ("ab\ncd".data) 3).head? = some (("ab\ncd".data).take i) ∧
        ("ab\ncd".data).get? i = some '\n' ∧
        ∀ j, i < j → j < 3 → ("ab\ncd".data).get? j ≠ some '\n') ∧
      ((rfindNl ("ab\ncd".data) 3 = none ∨ rfindNl ("ab\ncd".data) 3 = some 0) →
        (chunk_text ("ab\ncd".data) 3).head? = some (("ab\ncd".data).take 3))) :=
  chunk_text_amended ("ab\ncd".data) 3 (by decide)

/-! Data model: one row of the `pending` table (src/collector.py lines
101-107) and the store (pending table, `meta` table, AUTOINCREMENT
counter).  Labels are kept as the list the code JSON-encodes on insert
and decodes on select; `amount REAL` is modelled as an optional rational. -/

structure Row where
  id : Nat
  source : String
  key : String
  title : String
  url : String
  repo : String
  labels : List String
  language : String
  amount : Option Rat
  currency : Option String
  created_at : Int
  notified : Nat
deriving DecidableEq

structure Store where
  pending : List Row
  meta : List (String × String)
  nextId : Nat
deriving DecidableEq

/-- Python truthiness of `created_at or int(time.time())` in
`upsert_pending`: `None` and `0` both fall back to the current time. -/
def pyOrInt (a : Option Int) (b : Int) : Int :=
  match a with
  | some t => if t = 0 then b else t
  | none => b

/-- Python truthiness of `lookback_override_min or DIGEST_LOOKBACK_MIN`. -/
def pyOrNat (a : Option Nat) (b : Nat) : Nat :=
  match a with
  | some n => if n = 0 then b else n
  | none => b

/-- The `SELECT 1 FROM pending WHERE source=? AND key=?` existence probe
of `upsert_pending` (src/collector.py lines 225-226). -/
def hasPair (store : Store) (source key : String) : Bool :=
  store.pending.any (fun r => r.source == source && r.key == key)

/-- Number of stored rows carrying a given `(source, key)` identity. -/
def pairCount (store : Store) (source key : String) : Nat :=
  (store.pending.filter (fun r => r.source == source && r.key == key)).length

/-- The row built by the `INSERT INTO pending(...) VALUES(...,0)` of
`upsert_pending`: `notified` is 0 and `created_at` falls back to the
current time under Python `or` truthiness. -/
def freshRow (store : Store) (now : Int) (source key title url repo : String)
    (labels : List String) (language : String) (amount : Option Rat)
    (currency : Option String) (created_at : Option Int) : Row :=
  { id := store.nextId, source := source, key := key, title := title,
    url := url, repo := repo, labels := labels, language := language,
    amount := amount, currency := currency,
    created_at := pyOrInt created_at now, notified := 0 }

/-- `upsert_pending` (src/collector.py lines 223-232): insert-if-absent
keyed on `(source, key)`; a fresh row gets `notified = 0` and
`created_at or int(time.time())`; returns whether a row was inserted. -/
def upsert_pending (store : Store) (now : Int) (source key title url repo : String)
    (labels : List String) (language : String) (amount : Option Rat)
    (currency : Option String) (created_at : Option Int) : Store × Bool :=
  if hasPair store source key then (store, false)
  else
    ({ store with
        pending := store.pending ++
          [freshRow store now source key title url repo labels language amount
            currency created_at],
        nextId := store.nextId + 1 }, true)

/-- `meta_set` (src/collector.py lines 124-126): `INSERT OR REPLACE`
into the key/value `meta` table; the pending table is untouched. -/
def meta_set (store : Store) (k v : String) : Store :=
  { store with meta := (store.meta.filter (fun p => p.1 != k)) ++ [(k, v)] }

/-- Stable insertion into a sorted list: `x` is placed before the first
element it may precede, so equal sort keys keep their original order. -/
def insertSorted {α : Type} (le : α → α → Bool) (x : α) : List α → List α
  | [] => [x]
  | y :: ys => if le x y then x :: y :: ys else y :: insertSorted le x ys

/-- Stable insertion sort, used to model SQL `ORDER BY` and Python
`sorted(..., reverse=True)` (the tie order of the SQL sort is not
observable by any claim). -/
def insSort {α : Type} (le : α → α → Bool) : List α → List α
  | [] => []
  | x :: xs => insertSorted le x (insSort le xs)

theorem insertSorted_perm {α : Type} (le : α → α → Bool) (x : α) (l : List α) :
    (insertSorted le x l).Perm (x :: l) := by
  induction l with
  | nil => exact List.Perm.refl _
  | cons y ys ih =>
    by_cases h : le x y
    · simp [insertSorted, h]
    · simp only [insertSorted, if_neg h]
      exact (ih.cons y).trans (List.Perm.swap x y ys)

theorem insSort_perm {α : Type} (le : α → α → Bool) (l : List α) :
    (insSort le l).Perm l := by
  induction l with
  | nil => exact List.Perm.refl _
  | cons x xs ih =>
    exact (insertSorted_perm le x (insSort le xs)).trans (ih.cons x)

theorem mem_insSort {α : Type} (le : α → α → Bool) (l : List α) (a : α) :
    a ∈ insSort le l ↔ a ∈ l :=
  (insSort_perm le l).mem_iff

/-- Eligibility filter of the digest selection query:
`created_at >= since AND notified = 0`. -/
def eligible (since : Int) (r : Row) : Bool :=
  decide (since ≤ r.created_at) && (r.notified == 0)

/-- The `SELECT ... WHERE created_at>=? AND notified=0 ORDER BY
created_at DESC LIMIT ?` query of `digest` (src/collector.py lines
364-368), also the spec's `select_pending`. -/
def select_pending (store : Store) (since : Int) (limit : Nat) : List Row :=
  (insSort (fun a b => decide (b.created_at ≤ a.created_at))
    (store.pending.filter (eligible since))).take limit

/-- The delivery commit of `digest` (src/collector.py lines 409-411):
`UPDATE pending SET notified=1 WHERE id=?` for each selected id. -/
def mark_notified (store : Store) (ids : List Nat) : Store :=
  { store with
      pending := store.pending.map
        (fun r => if r.id ∈ ids then { r with notified := 1 } else r) }

theorem mem_select_pending (store : Store) (since : Int) (limit : Nat) (r : Row)
    (h : r ∈ select_pending store since limit) :
    r ∈ store.pending ∧ since ≤ r.created_at ∧ r.notified = 0 := by
  unfold select_pending at h
  have h1 := (mem_insSort _ _ r).mp (List.mem_of_mem_take h)
  refine ⟨List.mem_of_mem_filter h1, ?_, ?_⟩
  · have := List.of_mem_filter h1
    unfold eligible at this
    simp at this
    exact this.1
  · have := List.of_mem_filter h1
    unfold eligible at this
    simp at this
    exact this.2

theorem select_pending_complete (store : Store) (since : Int) (limit : Nat) (r : Row)
    (hr : r ∈ store.pending) (hsince : since ≤ r.created_at) (hnot : r.notified = 0)
    (hcount : (store.pending.filter (eligible since)).length ≤ limit) :
    r ∈ select_pending store since limit := by
  unfold select_pending
  have hfil : r ∈ store.pending.filter (eligible since) := by
    refine List.mem_filter.mpr ⟨hr, ?_⟩
    unfold eligible
    simp [hsince, hnot]
  have hlen : (insSort (fun a b => decide (b.created_at ≤ a.created_at))
      (store.pending.filter (eligible since))).length =
      (store.pending.filter (eligible since)).length :=
    (insSort_perm _ _).length_eq
  rw [List.take_of_length_le (by omega)]
  exact (mem_insSort _ _ r).mpr hfil

theorem upsert_present (store : Store) (now : Int) (s k t u rp : String)
    (ls : List String) (lg : String) (am : Option Rat) (cu : Option String)
    (ca : Option Int) (h : hasPair store s k = true) :
    upsert_pending store now s k t u rp ls lg am cu ca = (store, false) := by
  unfold upsert_pending
  rw [h]
  simp

theorem upsert_absent (store : Store) (now : Int) (s k t u rp : String)
    (ls : List String) (lg : String) (am : Option Rat) (cu : Option String)
    (ca : Option Int) (h : hasPair store s k = false) :
    upsert_pending store now s k t u rp ls lg am cu ca =
      ({ store with
          pending := store.pending ++ [freshRow store now s k t u rp ls lg am cu ca],
          nextId := store.nextId + 1 }, true) := by
  unfold upsert_pending
  rw [h]
  simp

theorem hasPair_iff_pairCount (store : Store) (s k : String) :
    hasPair store s k = true ↔ 0 < pairCount store s k := by
  unfold hasPair pairCount
  rw [List.length_pos]
  constructor
  · intro h hnil
    obtain ⟨x, hx, hpx⟩ := List.any_eq_true.mp h
    exact List.filter_eq_nil_iff.mp hnil x hx hpx
  · intro h
    obtain ⟨x, hx⟩ := List.exists_mem_of_ne_nil _ h
    exact List.any_eq_true.mpr ⟨x, (List.mem_filter.mp hx).1, (List.mem_filter.mp hx).2⟩

/-- C3: `upsert_pending` is idempotent on the `(source, key)` identity:
a present pair causes no mutation and returns `false`; an absent pair
causes exactly one insertion, with `notified = 0`, and returns `true`;
hence two upserts of the same logical item leave exactly one row for
that pair. -/
theorem upsert_pending_idempotent (store : Store) (now now2 : Int)
    (s k t u rp : String) (ls : List String) (lg : String) (am : Option Rat)
    (cu : Option String) (ca : Option Int) (t2 u2 rp2 : String) (ls2 : List String)
    (lg2 : String) (am2 : Option Rat) (cu2 : Option String) (ca2 : Option Int) :
    (hasPair store s k = true →
      upsert_pending store now s k t u rp ls lg am cu ca = (store, false)) ∧
    (hasPair store s k = false →
      (upsert_pending store now s k t u rp ls lg am cu ca).2 = true ∧
      (∃ row : Row, row.source = s ∧ row.key = k ∧ row.notified = 0 ∧
        (upsert_pending store now s k t u rp ls lg am cu ca).1.pending =
          store.pending ++ [row]) ∧
      pairCount (upsert_pending store now s k t u rp ls lg am cu ca).1 s k =
        pairCount store s k + 1) ∧
    (pairCount store s k = 0 →
      (upsert_pending (upsert_pending store now s k t u rp ls lg am cu ca).1
          now2 s k t2 u2 rp2 ls2 lg2 am2 cu2 ca2) =
        ((upsert_pending store now s k t u rp ls lg am cu ca).1, false) ∧
      pairCount (upsert_pending (upsert_pending store now s k t u rp ls lg am cu ca).1
          now2 s k t2 u2 rp2 ls2 lg2 am2 cu2 ca2).1 s k = 1) := by
  have habsent := upsert_absent store now s k t u rp ls lg am cu ca
  refine ⟨upsert_present store now s k t u rp ls lg am cu ca, ?_, ?_⟩
  · intro h
    rw [habsent h]
    refine ⟨rfl, ⟨freshRow store now s k t u rp ls lg am cu ca, rfl, rfl, rfl, rfl⟩, ?_⟩
    unfold pairCount
    simp [freshRow]
  · intro h0
    have hnp : hasPair store s k = false := by
      cases hh : hasPair store s k with
      | false => rfl
      | true => exact absurd ((hasPair_iff_pairCount store s k).mp hh) (by omega)
    have hcount : pairCount (upsert_pending store now s k t u rp ls lg am cu ca).1 s k
        = pairCount store s k + 1 := by
      rw [habsent hnp]
      unfold pairCount
      simp [freshRow]
    have h1 : pairCount (upsert_pending store now s k t u rp ls lg am cu ca).1 s k = 1 := by
      omega
    have hpresent : hasPair (upsert_pending store now s k t u rp ls lg am cu ca).1 s k
        = true := (hasPair_iff_pairCount _ s k).mpr (by omega)
    have hsecond := upsert_present (upsert_pending store now s k t u rp ls lg am cu ca).1
      now2 s k t2 u2 rp2 ls2 lg2 am2 cu2 ca2 hpresent
    exact ⟨hsecond, by rw [hsecond]; exact h1⟩

/-- C3 witness: on the empty store, inserting the pair `("github",
"gh:1")` twice returns `true` then `false` and leaves exactly one row. -/
theorem upsert_pending_idempotent_witness :
    (hasPair ⟨[], [], 0⟩ "github" "gh:1" = true →
      upsert_pending ⟨[], [], 0⟩ 5 "github" "gh:1" "t" "u" "r" [] "" none none none =
        (⟨[], [], 0⟩, false)) ∧
    (hasPair ⟨[], [], 0⟩ "github" "gh:1" = false →
      (upsert_pending ⟨[], [], 0⟩ 5 "github" "gh:1" "t" "u" "r" [] "" none none none).2
        = true ∧
      (∃ row : Row, row.source = "github" ∧ row.key = "gh:1" ∧ row.notified = 0 ∧
        (upsert_pending ⟨[], [], 0⟩ 5 "github" "gh:1" "t" "u" "r" [] ""
            none none none).1.pending = ([] : List Row) ++ [row]) ∧
      pairCount (upsert_pending ⟨[], [], 0⟩ 5 "github" "gh:1" "t" "u" "r" [] ""
          none none none).1 "github" "gh:1" =
        pairCount ⟨[], [], 0⟩ "github" "gh:1" + 1) ∧
    (pairCount ⟨[], [], 0⟩ "github" "gh:1" = 0 →
      (upsert_pending (upsert_pending ⟨[], [], 0⟩ 5 "github" "gh:1" "t" "u" "r" [] ""
          none none none).1 9 "github" "gh:1" "t2" "u2" "r2" [] "" none none none) =
        ((upsert_pending ⟨[], [], 0⟩ 5 "github" "gh:1" "t" "u" "r" [] ""
            none none none).1, false) ∧
      pairCount (upsert_pending (upsert_pending ⟨[], [], 0⟩ 5 "github" "gh:1" "t" "u"
          "r" [] "" none none none).1 9 "github" "gh:1" "t2" "u2" "r2" [] ""
          none none none).1 "github" "gh:1" = 1) :=
  upsert_pending_idempotent ⟨[], [], 0⟩ 5 9 "github" "gh:1" "t" "u" "r" [] "" none
    none none "t2" "u2" "r2" [] "" none none none

/-! Message formatter: `make_digest_text` (src/collector.py lines
314-341) and its helpers.  The single-quote character used by the
Python `dict` repr is produced as `Char.ofNat 39`. -/

def sq : String := (Char.ofNat 39).toString

def natPad2 (n : Nat) : String :=
  if n < 10 then "0" ++ toString n else toString n

/-- `datetime.fromtimestamp(ts, timezone.utc).strftime("%H:%MZ")`:
hours and minutes of the Unix timestamp, zero-padded (floor semantics
for negative timestamps, matching Python). -/
def fmtHHMMZ (ts : Int) : String :=
  natPad2 ((Int.emod (Int.fdiv ts 3600) 24).toNat) ++ ":" ++
    natPad2 ((Int.emod (Int.fdiv ts 60) 60).toNat) ++ "Z"

/-- One step of `collections.Counter`: increment the count of `x`,
keeping first-occurrence order (Python dicts preserve insertion order). -/
def counterAdd (acc : List (String × Nat)) (x : String) : List (String × Nat) :=
  if acc.any (fun p => p.1 == x) then
    acc.map (fun p => if p.1 == x then (p.1, p.2 + 1) else p)
  else acc ++ [(x, 1)]

/-- `collections.Counter(xs)` as an insertion-ordered association list. -/
def counterOf (xs : List String) : List (String × Nat) :=
  xs.foldl counterAdd []

/-- Python `repr` of a string-keyed counter as a dict, as interpolated
by `f"...{dict(by_source)}..."`. -/
def dictRepr (l : List (String × Nat)) : String :=
  "\x7b" ++ String.intercalate ", "
    (l.map (fun p => sq ++ p.1 ++ sq ++ ": " ++ toString p.2)) ++ "\x7d"

/-- `Counter.most_common(n)`: sort by count descending, stable (ties in
first-insertion order), truncated to `n`. -/
def most_common (l : List (String × Nat)) (n : Nat) : List (String × Nat) :=
  (insSort (fun a b => decide (b.2 ≤ a.2)) l).take n

/-- Rounding of Python float formatting `f"{x:.0f}"` (round half to
even), modelled on rationals and computed on the reduced fraction:
with `f = ⌊q⌋` the fractional remainder `q - f` is compared against
`1/2` via `2 * (num - f * den)` versus `den`. -/
def roundHalfEven (q : Rat) : Int :=
  if 2 * (q.num - Int.fdiv q.num (q.den : Int) * (q.den : Int)) < (q.den : Int) then
    Int.fdiv q.num (q.den : Int)
  else if (q.den : Int) < 2 * (q.num - Int.fdiv q.num (q.den : Int) * (q.den : Int)) then
    Int.fdiv q.num (q.den : Int) + 1
  else if Int.fdiv q.num (q.den : Int) % 2 = 0 then Int.fdiv q.num (q.den : Int)
  else Int.fdiv q.num (q.den : Int) + 1

/-- The amount rendering `f"${float(x):.0f}"` of `make_digest_text`:
always a dollar sign, regardless of the record currency. -/
def fmtDollar (q : Rat) : String := "$" ++ toString (roundHalfEven q)

def stripWs (s : List Char) : List Char :=
  ((s.dropWhile pyIsSpace).reverse.dropWhile pyIsSpace).reverse

def allDigits (l : List Char) : Bool := l.all (fun c => c.isDigit)

def digitsToNat (ds : List Char) : Nat :=
  ds.foldl (fun a c => a * 10 + (c.toNat - 48)) 0

/-- Unsigned decimal literal: digits, with an optional fractional part
after one dot, at least one digit overall. -/
def parseUnsigned (s : List Char) : Option Rat :=
  let ip := s.takeWhile (fun c => c != '.')
  match s.drop ip.length with
  | [] => if !ip.isEmpty && allDigits ip then some (mkRat (digitsToNat ip : Int) 1) else none
  | c :: fp =>
    if c == '.' && allDigits ip && allDigits fp && !(ip.isEmpty && fp.isEmpty) then
      some (mkRat (digitsToNat (ip ++ fp) : Int) (10 ^ fp.length))
    else none

/-- Model of Python `float(str)` on plain signed decimal literals with
surrounding whitespace; anything else (scientific notation, inf, nan,
digit underscores) is outside the model and yields `none`, which the
caller treats like the `except: pass` of the source. -/
def pyFloat (s : String) : Option Rat :=
  match stripWs s.data with
  | '+' :: u => parseUnsigned u
  | '-' :: u => (parseUnsigned u).map (fun q => mkRat (-q.num) q.den)
  | u => parseUnsigned u

/-- `lab.split(' ', 1)[1]`: everything after the first space. -/
def pySplitRest (lab : String) : String :=
  ⟨(lab.data.dropWhile (fun c => c != ' ')).drop 1⟩

/-- `s.startswith(pre)` over code points. -/
def strStartsWith (s pre : String) : Bool :=
  s.data.take pre.data.length == pre.data

/-- The label scan of `bullet` in `make_digest_text` (src/collector.py
lines 326-330): only labels starting with `"USD "` are examined; the
first one whose remainder parses as a float wins; parse failures fall
through to the next label. -/
def amountFromLabels : List String → String
  | [] => ""
  | lab :: rest =>
    if strStartsWith lab "USD " then
      match pyFloat (pySplitRest lab) with
      | some v => fmtDollar v
      | none => amountFromLabels rest
    else amountFromLabels rest

/-- The amount prefix of `bullet` (src/collector.py lines 322-330): the
numeric `amount` column when present, otherwise the `"USD "` label scan,
otherwise empty. -/
def bulletAmount (r : Row) : String :=
  match r.amount with
  | some a => fmtDollar a
  | none => amountFromLabels r.labels

/-- `bullet(r)` of `make_digest_text` (src/collector.py lines 321-334). -/
def bullet (r : Row) : String :=
  (("• " ++ (if bulletAmount r == "" then "" else bulletAmount r ++ " — ")) ++
      (if r.repo == "" then "" else r.repo ++ " — ") ++ r.title) ++
    ("\n  " ++ r.url ++ " (" ++ fmtHHMMZ r.created_at ++ ")")

/-- The header line of `make_digest_text`:
`f"💎 Bounty digest — last {lookback_min} min · {count} item{...}"`. -/
def digestHeader (rows : List Row) (lookback_min : Nat) : String :=
  "💎 Bounty digest — last " ++ toString lookback_min ++ " min · " ++
    toString rows.length ++ " item" ++ (if rows.length != 1 then "s" else "")

/-- The `Top repos:` value: top five repos by occurrence count (stable
ties), or an em dash when no row has a repo. -/
def digestTopRepos (rows : List Row) : String :=
  if (counterOf ((rows.filter (fun r => r.repo != "")).map (fun r => r.repo))).isEmpty
  then "—"
  else String.intercalate ", "
    ((most_common (counterOf ((rows.filter (fun r => r.repo != "")).map (fun r => r.repo)))
      5).map (fun p => p.1 ++ " (" ++ toString p.2 ++ ")"))

/-- Header, source breakdown and repo breakdown — the part shared by the
full body and the header-only overflow message. -/
def digestMeta (rows : List Row) (lookback_min : Nat) : String :=
  digestHeader rows lookback_min ++ "\nSources: " ++
    dictRepr (counterOf (rows.map (fun r => r.source))) ++ "\nTop repos: " ++
    digestTopRepos rows

/-- The joined bullet list of all selected rows. -/
def digestBullets (rows : List Row) : String :=
  String.intercalate "\n" (rows.map bullet)

/-- The full single-message body of `make_digest_text`. -/
def digestBody (rows : List Row) (lookback_min : Nat) : String :=
  digestMeta rows lookback_min ++ "\n\n" ++ digestBullets rows

/-- The header-only message used when the body exceeds the budget. -/
def digestShort (rows : List Row) (lookback_min : Nat) : String :=
  digestMeta rows lookback_min ++ "\n\n(Details in thread ⤵️)"

/-- `make_digest_text(rows, lookback_min)` (src/collector.py lines
314-341); the global `MAX_SLACK_CHARS` is passed explicitly.  Returns
the message text and the optional overflow bullet list. -/
def make_digest_text (rows : List Row) (lookback_min : Nat) (maxSlackChars : Nat) :
    String × Option String :=
  if (digestBody rows lookback_min).length ≤ maxSlackChars then
    (digestBody rows lookback_min, none)
  else (digestShort rows lookback_min, some (digestBullets rows))

example : fmtHHMMZ 0 = "00:00Z" := by decide

example : fmtHHMMZ 3661 = "01:01Z" := by decide

example : bulletAmount
    ⟨1, "test", "k", "T", "u", "", ["USD 123.00"], "", none, none, 0, 0⟩ = "$123" := by
  decide

example : bulletAmount
    ⟨1, "a", "k", "T", "u", "", [], "", some (mkRat 250 2), none, 0, 0⟩ = "$125" := by
  decide

example : pyFloat "123.50" = some (mkRat 247 2) := by decide

example : pyFloat "  -7 " = some (mkRat (-7) 1) := by decide

example : pyFloat "x10" = none := by decide

example : fmtDollar (mkRat 247 2) = "$124" := by decide

example : fmtDollar (mkRat 245 2) = "$122" := by decide

example :
    (make_digest_text [⟨1, "github", "k", "T", "u", "", [], "", none, none, 0, 0⟩]
      60 3500).2 = none := by decide

example :
    (make_digest_text [⟨1, "github", "k", "T", "u", "", [], "", none, none, 0, 0⟩]
      60 10).2 ≠ none := by decide

/-! Delivery coordinator: `digest` (src/collector.py lines 358-414).
Environment globals become a `Config`; the Slack transports are oracles
in a `Transport` record; the texts handed to each transport, the CSV
write and the upload attempt are recorded in a `DigestEffects` record. -/

structure Config where
  botTokenPresent : Bool
  webhookPresent : Bool
  digestLookbackMin : Nat
  digestMinCount : Nat
  maxItemsInDigest : Nat
  maxSlackChars : Nat
  postLongAsThread : Bool
  writeCsvEnabled : Bool
  uploadCsvToSlack : Bool
deriving DecidableEq

/-- Response of `chat.postMessage` as read by `digest`: `res.get("ok")`,
`res.get("ts")` and `res.get("message", {}).get("ts")`. -/
structure BotResp where
  ok : Bool
  ts : Option String
  messageTs : Option String
deriving DecidableEq

/-- Transport oracle: the bot response when a bot call is made, and the
webhook acceptance when a webhook call is made. -/
structure Transport where
  bot : BotResp
  webhookOk : Bool
deriving DecidableEq

structure DigestEffects where
  botCalls : List String
  threadCalls : List String
  webhookCalls : List String
  csvRows : Option (List Row)
  uploadCalls : Nat
deriving DecidableEq

def noEffects : DigestEffects := ⟨[], [], [], none, 0⟩

/-- Python `res.get("ts") or res.get("message", {}).get("ts")`: the
empty string is falsy. -/
def pyOrStr (a b : Option String) : Option String :=
  match a with
  | some s => if s == "" then b else some s
  | none => b

/-- Python truthiness of an optional string. -/
def strTruthy : Option String → Bool
  | some s => s != ""
  | none => false

def chunkStrings (s : String) (limit : Nat) : List String :=
  (chunk_text s.data limit).map (fun l => ⟨l⟩)

/-- The thread-reply texts of `digest` (src/collector.py lines 392-395):
the fragments of `chunk_text(thread_details, MAX_SLACK_CHARS)` in order,
every fragment after the first prefixed with `"(cont.)\n"`. -/
def threadTexts (d : String) (m : Nat) : List String :=
  match chunkStrings d m with
  | [] => []
  | c :: cs => c :: cs.map (fun x => "(cont.)\n" ++ x)

/-- The selection step of `digest`: `since = now - lookback * 60` with
Python-`or` fallback of the lookback override, then the pending query. -/
def digestRows (cfg : Config) (store : Store) (now : Int) (ov : Option Nat) : List Row :=
  select_pending store (now - (pyOrNat ov cfg.digestLookbackMin : Int) * 60)
    cfg.maxItemsInDigest

/-- The thread-posting guard of `digest`:
`if thread_details and POST_LONG_AS_THREAD and thread_ts:`. -/
def digestThreadCalls (cfg : Config) (posted0 : Bool) (thread_ts : Option String)
    (td2 : Option String) : List String :=
  if posted0 then
    match td2 with
    | some d =>
      if d != "" && cfg.postLongAsThread && strTruthy thread_ts then
        threadTexts d cfg.maxSlackChars
      else []
    | none => []
  else []

/-- The single webhook-fallback text of `digest` (line 399):
`text if not thread_details else f"{text}\n\n{thread_details}"`. -/
def webhookText (text : String) (td2 : Option String) : String :=
  match td2 with
  | some d => if d != "" then text ++ "\n\n" ++ d else text
  | none => text

/-- `digest(lookback_override_min)` (src/collector.py lines 358-414).
Returns the updated store and the observable effects of the cycle:
texts posted to the bot, thread and webhook transports, the rows written
to CSV (if any), and whether a Slack upload was attempted. -/
def digest (cfg : Config) (tr : Transport) (store : Store) (now : Int) (ov : Option Nat) :
    Store × DigestEffects :=
  if (digestRows cfg store now ov).length < cfg.digestMinCount then (store, noEffects)
  else
    let rows := digestRows cfg store now ov
    let td := make_digest_text rows (pyOrNat ov cfg.digestLookbackMin) cfg.maxSlackChars
    let res := if cfg.botTokenPresent then tr.bot else ⟨false, none, none⟩
    let botCalls := if cfg.botTokenPresent then [td.1] else []
    let posted0 := res.ok
    let thread_ts := if res.ok then pyOrStr res.ts res.messageTs else none
    let threadCalls := digestThreadCalls cfg posted0 thread_ts td.2
    let webhookCalls := if !posted0 && cfg.webhookPresent then [webhookText td.1 td.2] else []
    let posted := if !posted0 && cfg.webhookPresent then tr.webhookOk else posted0
    let csvRows := if cfg.writeCsvEnabled then some rows else none
    let uploads := if cfg.writeCsvEnabled && posted && cfg.uploadCsvToSlack then 1 else 0
    let st2 := if posted then mark_notified store (rows.map (fun r => r.id)) else store
    (st2, ⟨botCalls, threadCalls, webhookCalls, csvRows, uploads⟩)

/-- Whether some transport call of the cycle returned confirmed
acceptance: the bot call (made only when a bot token is configured)
reported `ok`, or — when it did not — the webhook (called only when
configured) reported acceptance. -/
def transportAccepted (cfg : Config) (tr : Transport) : Bool :=
  (cfg.botTokenPresent && tr.bot.ok) ||
    (!(cfg.botTokenPresent && tr.bot.ok) && cfg.webhookPresent && tr.webhookOk)

theorem digest_of_lt (cfg : Config) (tr : Transport) (store : Store) (now : Int)
    (ov : Option Nat) (h : (digestRows cfg store now ov).length < cfg.digestMinCount) :
    digest cfg tr store now ov = (store, noEffects) := by
  unfold digest
  rw [if_pos h]

theorem digest_fst (cfg : Config) (tr : Transport) (store : Store) (now : Int)
    (ov : Option Nat) (h : cfg.digestMinCount ≤ (digestRows cfg store now ov).length) :
    (digest cfg tr store now ov).1 =
      if transportAccepted cfg tr = true then
        mark_notified store ((digestRows cfg store now ov).map (fun r => r.id))
      else store := by
  unfold digest
  rw [if_neg (Nat.not_lt.mpr h)]
  cases hbt : cfg.botTokenPresent <;> cases hok : tr.bot.ok <;>
    cases hwh : cfg.webhookPresent <;> cases hwo : tr.webhookOk <;>
    simp [transportAccepted, hbt, hok, hwh, hwo]

theorem digest_csv (cfg : Config) (tr : Transport) (store : Store) (now : Int)
    (ov : Option Nat) (h : cfg.digestMinCount ≤ (digestRows cfg store now ov).length) :
    (digest cfg tr store now ov).2.csvRows =
      if cfg.writeCsvEnabled then some (digestRows cfg store now ov) else none := by
  unfold digest
  rw [if_neg (Nat.not_lt.mpr h)]

theorem digest_uploads (cfg : Config) (tr : Transport) (store : Store) (now : Int)
    (ov : Option Nat) (h : (digest cfg tr store now ov).2.uploadCalls ≠ 0) :
    transportAccepted cfg tr = true := by
  by_cases hlt : (digestRows cfg store now ov).length < cfg.digestMinCount
  · rw [digest_of_lt cfg tr store now ov hlt] at h
    exact absurd rfl h
  · unfold digest at h
    rw [if_neg hlt] at h
    cases hbt : cfg.botTokenPresent <;> cases hok : tr.bot.ok <;>
      cases hwh : cfg.webhookPresent <;> cases hwo : tr.webhookOk <;>
      simp [transportAccepted, hbt, hok, hwh, hwo] at h ⊢

theorem digest_threadCalls_sub (cfg : Config) (tr : Transport) (store : Store) (now : Int)
    (ov : Option Nat) (t : String) (ht : t ∈ (digest cfg tr store now ov).2.threadCalls) :
    ∃ d, t ∈ threadTexts d cfg.maxSlackChars := by
  by_cases hlt : (digestRows cfg store now ov).length < cfg.digestMinCount
  · rw [digest_of_lt cfg tr store now ov hlt] at ht
    simp [noEffects] at ht
  · unfold digest at ht
    rw [if_neg hlt] at ht
    simp only [digestThreadCalls] at ht
    split at ht
    all_goals try split at ht
    all_goals try split at ht
    all_goals first
    | exact ⟨_, ht⟩
    | (simp at ht; exact ⟨_, ht.2⟩)
    | simp at ht

/-- C7: when the pending selection over the lookback window (capped at
`MAX_ITEMS_IN_DIGEST`) has fewer than `DIGEST_MIN_COUNT` rows, the
digest cycle returns before any transport call: the store is unchanged
and no bot, thread, webhook, CSV or upload effect occurs. -/
theorem digest_suppression (cfg : Config) (tr : Transport) (store : Store) (now : Int)
    (ov : Option Nat)
    (h : (digestRows cfg store now ov).length < cfg.digestMinCount) :
    (digest cfg tr store now ov).1 = store ∧
    (digest cfg tr store now ov).2.botCalls = [] ∧
    (digest cfg tr store now ov).2.threadCalls = [] ∧
    (digest cfg tr store now ov).2.webhookCalls = [] ∧
    (digest cfg tr store now ov).2.csvRows = none ∧
    (digest cfg tr store now ov).2.uploadCalls = 0 := by
  rw [digest_of_lt cfg tr store now ov h]
  exact ⟨rfl, rfl, rfl, rfl, rfl, rfl⟩

def c7cfg : Config := ⟨true, true, 60, 3, 50, 3500, true, true, false⟩

def c7store : Store :=
  ⟨[⟨1, "github", "a", "T1", "u1", "", [], "", none, none, 0, 0⟩,
    ⟨2, "github", "b", "T2", "u2", "", [], "", none, none, 0, 0⟩], [], 3⟩

def c7tr : Transport := ⟨⟨true, some "1", none⟩, true⟩

/-- C7 witness: with `min_count = 3` and exactly two eligible pending
records the cycle is suppressed with no effects. -/
theorem digest_suppression_witness :
    (digestRows c7cfg c7store 0 none).length < c7cfg.digestMinCount ∧
    ((digest c7cfg c7tr c7store 0 none).1 = c7store ∧
      (digest c7cfg c7tr c7store 0 none).2.botCalls = [] ∧
      (digest c7cfg c7tr c7store 0 none).2.threadCalls = [] ∧
      (digest c7cfg c7tr c7store 0 none).2.webhookCalls = [] ∧
      (digest c7cfg c7tr c7store 0 none).2.csvRows = none ∧
      (digest c7cfg c7tr c7store 0 none).2.uploadCalls = 0) :=
  ⟨by decide, digest_suppression c7cfg c7tr c7store 0 none (by decide)⟩

/-- C1: the notified flag is committed exactly for the selected rows if
and only if some transport call returned confirmed acceptance; when both
transports fail (or do not accept), the store is unchanged, every
selected record still has `notified = 0`, and it is returned again by a
later pending selection whose window still covers the record and whose
limit accommodates the eligible rows. -/
theorem digest_commit_iff_transport (cfg : Config) (tr : Transport) (store : Store)
    (now : Int) (ov : Option Nat)
    (hsel : cfg.digestMinCount ≤ (digestRows cfg store now ov).length) :
    (transportAccepted cfg tr = true →
      (digest cfg tr store now ov).1 =
        mark_notified store ((digestRows cfg store now ov).map (fun r => r.id)) ∧
      ∀ r2 ∈ (digest cfg tr store now ov).1.pending,
        (∃ r ∈ digestRows cfg store now ov, r.id = r2.id) → r2.notified = 1) ∧
    (transportAccepted cfg tr = false →
      (digest cfg tr store now ov).1 = store ∧
      ∀ r ∈ digestRows cfg store now ov,
        r.notified = 0 ∧
        ∀ since2 limit2, since2 ≤ r.created_at →
          (store.pending.filter (eligible since2)).length ≤ limit2 →
          r ∈ select_pending (digest cfg tr store now ov).1 since2 limit2) := by
  constructor
  · intro hacc
    have hst := digest_fst cfg tr store now ov hsel
    rw [if_pos hacc] at hst
    refine ⟨hst, ?_⟩
    rw [hst]
    rintro r2 hr2 ⟨r, hr, hid⟩
    have hr2m : r2 ∈ store.pending.map
        (fun x => if x.id ∈ (digestRows cfg store now ov).map (fun r => r.id) then
          { x with notified := 1 } else x) := hr2
    obtain ⟨x, hx, rfl⟩ := List.mem_map.mp hr2m
    by_cases hc : x.id ∈ (digestRows cfg store now ov).map (fun r => r.id)
    · rw [if_pos hc]
    · rw [if_neg hc] at hid ⊢
      exact absurd (List.mem_map.mpr ⟨r, hr, hid⟩) hc
  · intro hacc
    have hst := digest_fst cfg tr store now ov hsel
    rw [if_neg (by simp [hacc])] at hst
    refine ⟨hst, ?_⟩
    intro r hr
    have hr2 : r ∈ select_pending store
        (now - (pyOrNat ov cfg.digestLookbackMin : Int) * 60) cfg.maxItemsInDigest := hr
    obtain ⟨hmem, hsince, hnot⟩ := mem_select_pending store _ _ r hr2
    refine ⟨hnot, ?_⟩
    intro since2 limit2 h1 h2
    rw [hst]
    exact select_pending_complete store since2 limit2 r hmem h1 hnot h2

def c1cfg : Config := ⟨true, false, 60, 1, 50, 3500, true, false, false⟩

def c1store : Store :=
  ⟨[⟨1, "github", "a", "T1", "u1", "", [], "", none, none, 0, 0⟩], [], 2⟩

def c1trOk : Transport := ⟨⟨true, some "11.22", none⟩, false⟩

/-- C1 witness: a one-row store whose digest is accepted by the bot
transport; the selection threshold hypothesis is discharged
concretely. -/
theorem digest_commit_iff_transport_witness :
    c1cfg.digestMinCount ≤ (digestRows c1cfg c1store 0 none).length ∧
    ((transportAccepted c1cfg c1trOk = true →
      (digest c1cfg c1trOk c1store 0 none).1 =
        mark_notified c1store ((digestRows c1cfg c1store 0 none).map (fun r => r.id)) ∧
      ∀ r2 ∈ (digest c1cfg c1trOk c1store 0 none).1.pending,
        (∃ r ∈ digestRows c1cfg c1store 0 none, r.id = r2.id) → r2.notified = 1) ∧
    (transportAccepted c1cfg c1trOk = false →
      (digest c1cfg c1trOk c1store 0 none).1 = c1store ∧
      ∀ r ∈ digestRows c1cfg c1store 0 none,
        r.notified = 0 ∧
        ∀ since2 limit2, since2 ≤ r.created_at →
          (c1store.pending.filter (eligible since2)).length ≤ limit2 →
          r ∈ select_pending (digest c1cfg c1trOk c1store 0 none).1 since2 limit2)) :=
  ⟨by decide, digest_commit_iff_transport c1cfg c1trOk c1store 0 none (by decide)⟩

theorem mark_notified_preserve (store : Store) (ids : List Nat) (r : Row)
    (hr : r ∈ store.pending) (h : r.notified = 1) :
    r ∈ (mark_notified store ids).pending := by
  have hfix : (if r.id ∈ ids then { r with notified := 1 } else r) = r := by
    split
    · cases r
      simp_all
    · rfl
  exact List.mem_map.mpr ⟨r, hr, hfix⟩

theorem digest_fst_cases (cfg : Config) (tr : Transport) (store : Store) (now : Int)
    (ov : Option Nat) :
    (digest cfg tr store now ov).1 = store ∨
    (digest cfg tr store now ov).1 =
      mark_notified store ((digestRows cfg store now ov).map (fun r => r.id)) := by
  by_cases hlt : (digestRows cfg store now ov).length < cfg.digestMinCount
  · left
    rw [digest_of_lt cfg tr store now ov hlt]
  · have := digest_fst cfg tr store now ov (Nat.not_lt.mp hlt)
    by_cases hacc : transportAccepted cfg tr = true
    · right
      rw [this, if_pos hacc]
    · left
      rw [this, if_neg hacc]

/-- C2: the notified flag is monotonic.  No operation of the model —
upsert, a whole digest cycle (selection, delivery, commit), a metadata
update, or the mark-notified commit itself — ever moves a row with
`notified = 1` out of that state (the row survives unchanged), and the
pending selection never returns a row with `notified = 1`. -/
theorem notified_monotonic (store : Store) :
    (∀ (now : Int) (s k t u rp : String) (ls : List String) (lg : String)
      (am : Option Rat) (cu : Option String) (ca : Option Int),
      ∀ r ∈ store.pending, r.notified = 1 →
        r ∈ (upsert_pending store now s k t u rp ls lg am cu ca).1.pending) ∧
    (∀ (cfg : Config) (tr : Transport) (now : Int) (ov : Option Nat),
      ∀ r ∈ store.pending, r.notified = 1 →
        r ∈ (digest cfg tr store now ov).1.pending) ∧
    (∀ k v, ∀ r ∈ store.pending, r.notified = 1 → r ∈ (meta_set store k v).pending) ∧
    (∀ ids, ∀ r ∈ store.pending, r.notified = 1 → r ∈ (mark_notified store ids).pending) ∧
    (∀ since limit, ∀ r ∈ select_pending store since limit, r.notified = 0) := by
  refine ⟨?_, ?_, ?_, ?_, ?_⟩
  · intro now s k t u rp ls lg am cu ca r hr h
    by_cases hp : hasPair store s k = true
    · rw [upsert_present store now s k t u rp ls lg am cu ca hp]
      exact hr
    · rw [upsert_absent store now s k t u rp ls lg am cu ca (Bool.not_eq_true _ ▸ hp)]
      exact List.mem_append_left _ hr
  · intro cfg tr now ov r hr h
    rcases digest_fst_cases cfg tr store now ov with hst | hst
    · rw [hst]; exact hr
    · rw [hst]; exact mark_notified_preserve store _ r hr h
  · intro k v r hr h
    exact hr
  · intro ids r hr h
    exact mark_notified_preserve store ids r hr h
  · intro since limit r hr
    exact (mem_select_pending store since limit r hr).2.2

def c2row : Row := ⟨7, "github", "a", "T", "u", "", [], "", none, none, 0, 1⟩

def c2store : Store := ⟨[c2row], [], 8⟩

/-- C2 witness: a store holding a row with `notified = 1`; the metadata
update and a fresh mark-notified both leave the row in place, and a
pending selection over a window covering it still excludes it. -/
theorem notified_monotonic_witness :
    c2row ∈ c2store.pending ∧ c2row.notified = 1 ∧
    c2row ∈ (meta_set c2store "profile_languages" "x").pending ∧
    c2row ∈ (mark_notified c2store [7]).pending ∧
    (∀ r ∈ select_pending c2store (-3600) 50, r.notified = 0) :=
  ⟨by decide, by decide,
    (notified_monotonic c2store).2.2.1 "profile_languages" "x" c2row (by decide) (by decide),
    (notified_monotonic c2store).2.2.2.1 [7] c2row (by decide) (by decide),
    (notified_monotonic c2store).2.2.2.2 (-3600) 50⟩

theorem chunkStrings_length_le (s : String) (m : Nat) (hm : 1 ≤ m) :
    ∀ c ∈ chunkStrings s m, c.length ≤ m := by
  intro c hc
  simp only [chunkStrings, List.mem_map] at hc
  obtain ⟨l, hl, rfl⟩ := hc
  exact (chunkTextFuel_mem m hm _ _ l hl).2

theorem threadTexts_le (d : String) (m : Nat) (hm : 1 ≤ m) :
    ∀ t ∈ threadTexts d m, t.length ≤ m + 8 := by
  intro t ht
  unfold threadTexts at ht
  cases hc : chunkStrings d m with
  | nil => rw [hc] at ht; simp at ht
  | cons c cs =>
    rw [hc] at ht
    rcases List.mem_cons.mp ht with rfl | ht2
    · have := chunkStrings_length_le d m hm t (by rw [hc]; exact List.mem_cons_self t cs)
      omega
    · obtain ⟨x, hx, rfl⟩ := List.mem_map.mp ht2
      have hxle := chunkStrings_length_le d m hm x
        (by rw [hc]; exact List.mem_cons_of_mem _ hx)
      rw [String.length_append]
      have h8 : ("(cont.)\n" : String).length = 8 := by decide
      omega

theorem make_digest_text_fit (rows : List Row) (lb m : Nat)
    (h : (make_digest_text rows lb m).2 = none) :
    (make_digest_text rows lb m).1.length ≤ m := by
  unfold make_digest_text at h ⊢
  by_cases hle : (digestBody rows lb).length ≤ m
  · rw [if_pos hle]
    exact hle
  · rw [if_neg hle] at h
    simp at h

def c5cfg : Config := ⟨true, false, 60, 1, 50, 10, true, false, false⟩

def c5store : Store :=
  ⟨[⟨1, "github", "k", "Example title", "http://x", "", [], "", none, none, 0, 0⟩], [], 2⟩

def c5tr : Transport := ⟨⟨true, some "1", none⟩, false⟩

/-- C5 counterexample: with the character budget configured at 10, the
digest hands the bot a short header far longer than the budget (the
header-only overflow message is never size-checked), and the second and
later thread replies exceed the budget as well, because the code posts
`"(cont.)\n" + chunk` where the chunk alone may already be as long as
the budget. -/
theorem digest_message_size_cex :
    ((digest c5cfg c5tr c5store 0 none).2.botCalls.all
      (fun t => decide (t.length ≤ c5cfg.maxSlackChars))) = false ∧
    ((digest c5cfg c5tr c5store 0 none).2.threadCalls.all
      (fun t => decide (t.length ≤ c5cfg.maxSlackChars))) = false := by
  decide

/-- C5 (amended): each thread continuation text is bounded by the budget
plus the 8-character `"(cont.)\n"` prefix (the chunk itself is within
the budget), and the text handed to the bot is within the budget exactly
when the rendered body fits in a single message; the short header sent
in the overflow case is not size-enforced by the code. -/
theorem digest_message_size_amended (cfg : Config) (tr : Transport) (store : Store)
    (now : Int) (ov : Option Nat) (h : 1 ≤ cfg.maxSlackChars) :
    (∀ t ∈ (digest cfg tr store now ov).2.threadCalls,
      t.length ≤ cfg.maxSlackChars + 8) ∧
    (∀ (rows : List Row) (lb : Nat),
      (make_digest_text rows lb cfg.maxSlackChars).2 = none →
      (make_digest_text rows lb cfg.maxSlackChars).1.length ≤ cfg.maxSlackChars) := by
  constructor
  · intro t ht
    obtain ⟨d, hd⟩ := digest_threadCalls_sub cfg tr store now ov t ht
    exact threadTexts_le d cfg.maxSlackChars h t hd
  · intro rows lb hnone
    exact make_digest_text_fit rows lb cfg.maxSlackChars hnone

def c5wcfg : Config := ⟨true, false, 60, 1, 50, 3500, true, false, false⟩

/-- C5 witness: the amended size bounds instantiated at the default
budget of 3500 characters. -/
theorem digest_message_size_amended_witness :
    1 ≤ c5wcfg.maxSlackChars ∧
    ((∀ t ∈ (digest c5wcfg c5tr c5store 0 none).2.threadCalls,
      t.length ≤ c5wcfg.maxSlackChars + 8) ∧
    (∀ (rows : List Row) (lb : Nat),
      (make_digest_text rows lb c5wcfg.maxSlackChars).2 = none →
      (make_digest_text rows lb c5wcfg.maxSlackChars).1.length ≤ c5wcfg.maxSlackChars)) :=
  ⟨by decide, digest_message_size_amended c5wcfg c5tr c5store 0 none (by decide)⟩

def c6cfg : Config := ⟨true, true, 60, 1, 50, 3500, true, true, false⟩

def c6row : Row := ⟨1, "github", "k", "T", "u", "", [], "", none, none, 0, 0⟩

def c6store : Store := ⟨[c6row], [], 2⟩

def c6tr : Transport := ⟨⟨false, none, none⟩, false⟩

/-- C6 counterexample: a digest cycle in which the bot call fails and
the webhook reports non-acceptance still writes the CSV artifact (the
`WRITE_CSV` block runs before and independently of the `posted` check),
while the store is left unmutated. -/
theorem csv_export_cex :
    transportAccepted c6cfg c6tr = false ∧
    (digest c6cfg c6tr c6store 0 none).2.csvRows = some [c6row] ∧
    (digest c6cfg c6tr c6store 0 none).1 = c6store := by
  decide

/-- C6 (amended): the CSV artifact is written whenever `WRITE_CSV` is
enabled and the cycle passes the suppression threshold, regardless of
the delivery outcome; only the Slack upload of the artifact is gated on
confirmed acceptance; and a fully failed delivery leaves the store
unmutated. -/
theorem csv_export_amended (cfg : Config) (tr : Transport) (store : Store) (now : Int)
    (ov : Option Nat) :
    ((digestRows cfg store now ov).length < cfg.digestMinCount →
      (digest cfg tr store now ov).2.csvRows = none) ∧
    (cfg.digestMinCount ≤ (digestRows cfg store now ov).length →
      (digest cfg tr store now ov).2.csvRows =
        if cfg.writeCsvEnabled then some (digestRows cfg store now ov) else none) ∧
    ((digest cfg tr store now ov).2.uploadCalls ≠ 0 →
      transportAccepted cfg tr = true) ∧
    (transportAccepted cfg tr = false → (digest cfg tr store now ov).1 = store) := by
  refine ⟨?_, ?_, digest_uploads cfg tr store now ov, ?_⟩
  · intro hlt
    rw [digest_of_lt cfg tr store now ov hlt]
    rfl
  · intro hge
    exact digest_csv cfg tr store now ov hge
  · intro hacc
    rcases digest_fst_cases cfg tr store now ov with hst | hst
    · exact hst
    · by_cases hlt : (digestRows cfg store now ov).length < cfg.digestMinCount
      · rw [digest_of_lt cfg tr store now ov hlt]
      · have := digest_fst cfg tr store now ov (Nat.not_lt.mp hlt)
        rw [this, if_neg (by simp [hacc])]

/-- C6 witness: the amended CSV policy instantiated at the failing
transport scenario: the CSV rows are written and the store is
unchanged. -/
theorem csv_export_amended_witness :
    c6cfg.digestMinCount ≤ (digestRows c6cfg c6store 0 none).length ∧
    (digest c6cfg c6tr c6store 0 none).2.csvRows =
      (if c6cfg.writeCsvEnabled then some (digestRows c6cfg c6store 0 none) else none) ∧
    transportAccepted c6cfg c6tr = false ∧
    (digest c6cfg c6tr c6store 0 none).1 = c6store :=
  ⟨by decide, (csv_export_amended c6cfg c6tr c6store 0 none).2.1 (by decide),
    by decide, (csv_export_amended c6cfg c6tr c6store 0 none).2.2.2 (by decide)⟩

/-! Ingestion: `collect(since_minutes, include_algora)` (src/collector.py
lines 234-271).  The two adapter fetches (`github_search` and
`algora_list`) are network calls, supplied as `Except` oracles: a list
of candidates, or an exception.  The GitHub block is guarded only by
`except requests.HTTPError`; the Algora block by `except Exception`
(which catches every exception).  `ensure_languages` runs before both
blocks and is outside the claims modelled here. -/

structure PyErr where
  isHTTPError : Bool
deriving DecidableEq

/-- One GitHub search item as read by `collect`: `it['id']`,
`it.get("title","")`, `it.get("html_url","")`, `it.get("repository_url","")`
and the extracted label names. -/
structure GhItem where
  id : Nat
  title : String
  html_url : String
  repository_url : String
  labels : List String
deriving DecidableEq

/-- One Algora candidate as produced by `algora_list` (its `id` field is
already `"algora:{...}"` and its source tag is the constant `"algora"`). -/
structure AlgoraCand where
  id : String
  title : String
  url : String
  repo : String
  labels : List String
  amount : Option Rat
  currency : Option String
  created_at : Int
deriving DecidableEq

structure CollectTrace where
  algoraInvoked : Bool
  ghInserted : Nat
  alInserted : Nat
deriving DecidableEq

def subAt (s sub : List Char) (i : Nat) : Bool :=
  (s.drop i).take sub.length == sub

def occIdxs (s sub : List Char) : List Nat :=
  (List.range (s.length + 1)).filter (fun i => subAt s sub i)

def containsSub (s sub : List Char) : Bool := !(occIdxs s sub).isEmpty

def afterLastSub (s sub : List Char) : List Char :=
  match (occIdxs s sub).getLast? with
  | some i => s.drop (i + sub.length)
  | none => s

/-- The repo extraction of the GitHub path:
`it.get("repository_url","").split("repos/")[-1]` if `"repos/"` occurs,
else the empty string (`"repos/"` cannot overlap itself, so the last
piece of the split is the suffix after the last occurrence). -/
def ghRepo (repository_url : String) : String :=
  if containsSub repository_url.data "repos/".data then
    ⟨afterLastSub repository_url.data "repos/".data⟩
  else ""

/-- One iteration of the GitHub loop of `collect` (lines 242-253): note
that no `created_at` is passed, so `upsert_pending` defaults it to the
current time. -/
def upsertGh (now : Int) (st : Store × Nat) (it : GhItem) : Store × Nat :=
  ((upsert_pending st.1 now "github" ("gh:" ++ toString it.id) it.title it.html_url
      (ghRepo it.repository_url) it.labels "" none none none).1,
    st.2 + (if (upsert_pending st.1 now "github" ("gh:" ++ toString it.id) it.title
      it.html_url (ghRepo it.repository_url) it.labels "" none none none).2 then 1 else 0))

/-- One iteration of the Algora loop of `collect` (lines 261-267): the
candidate carries its own `created_at`. -/
def upsertAl (now : Int) (st : Store × Nat) (b : AlgoraCand) : Store × Nat :=
  ((upsert_pending st.1 now "algora" b.id b.title b.url b.repo b.labels ""
      b.amount b.currency (some b.created_at)).1,
    st.2 + (if (upsert_pending st.1 now "algora" b.id b.title b.url b.repo b.labels ""
      b.amount b.currency (some b.created_at)).2 then 1 else 0))

/-- The Algora block of `collect`: guarded by `if include_algora` and
`except Exception`, so an Algora failure is always caught and the cycle
still completes. -/
def collectAlgoraPhase (now : Int) (alFetch : Except PyErr (List AlgoraCand))
    (includeAlgora : Bool) (store : Store) (ghNew : Nat) :
    Except PyErr (Store × CollectTrace) :=
  if includeAlgora then
    match alFetch with
    | Except.error _ => Except.ok (store, ⟨true, ghNew, 0⟩)
    | Except.ok items =>
      Except.ok ((items.foldl (upsertAl now) (store, 0)).1,
        ⟨true, ghNew, (items.foldl (upsertAl now) (store, 0)).2⟩)
  else Except.ok (store, ⟨false, ghNew, 0⟩)

/-- `collect` (src/collector.py lines 234-271): the GitHub block catches
only `requests.HTTPError`; any other exception from the GitHub fetch
propagates out of `collect` and the Algora block is never reached. -/
def collect (now : Int) (ghFetch : Except PyErr (List GhItem))
    (alFetch : Except PyErr (List AlgoraCand)) (includeAlgora : Bool)
    (store : Store) : Except PyErr (Store × CollectTrace) :=
  match ghFetch with
  | Except.error e =>
    if e.isHTTPError then collectAlgoraPhase now alFetch includeAlgora store 0
    else Except.error e
  | Except.ok items =>
    collectAlgoraPhase now alFetch includeAlgora
      ((items.foldl (upsertGh now) (store, 0)).1)
      ((items.foldl (upsertGh now) (store, 0)).2)

theorem upsert_pending_sub (store : Store) (now : Int) (source key t u rp : String)
    (ls : List String) (lg : String) (am : Option Rat) (cu : Option String)
    (ca : Option Int) :
    ∀ r ∈ (upsert_pending store now source key t u rp ls lg am cu ca).1.pending,
      r ∈ store.pending ∨ (r.source = source ∧ r.created_at = pyOrInt ca now) := by
  intro r hr
  by_cases hp : hasPair store source key = true
  · rw [upsert_present store now source key t u rp ls lg am cu ca hp] at hr
    exact Or.inl hr
  · rw [upsert_absent store now source key t u rp ls lg am cu ca
      (Bool.not_eq_true _ ▸ hp)] at hr
    rcases List.mem_append.mp hr with h | h
    · exact Or.inl h
    · rcases List.mem_singleton.mp h with rfl
      exact Or.inr ⟨rfl, rfl⟩

theorem foldl_upsertGh_sub (now : Int) (items : List GhItem) :
    ∀ st : Store × Nat, ∀ r ∈ (items.foldl (upsertGh now) st).1.pending,
      r ∈ st.1.pending ∨ (r.source = "github" ∧ r.created_at = now) := by
  induction items with
  | nil => intro st r hr; exact Or.inl hr
  | cons it rest ih =>
    intro st r hr
    rcases ih (upsertGh now st it) r hr with h | h
    · rcases upsert_pending_sub st.1 now "github" ("gh:" ++ toString it.id) it.title
        it.html_url (ghRepo it.repository_url) it.labels "" none none none r h with h1 | h1
      · exact Or.inl h1
      · exact Or.inr h1
    · exact Or.inr h

theorem foldl_upsertAl_sub (now : Int) (items : List AlgoraCand) :
    ∀ st : Store × Nat, ∀ r ∈ (items.foldl (upsertAl now) st).1.pending,
      r ∈ st.1.pending ∨ r.source = "algora" := by
  induction items with
  | nil => intro st r hr; exact Or.inl hr
  | cons b rest ih =>
    intro st r hr
    rcases ih (upsertAl now st b) r hr with h | h
    · rcases upsert_pending_sub st.1 now "algora" b.id b.title b.url b.repo b.labels ""
        b.amount b.currency (some b.created_at) r h with h1 | h1
      · exact Or.inl h1
      · exact Or.inr h1.1
    · exact Or.inr h

theorem collectAlgoraPhase_ok (now : Int) (alFetch : Except PyErr (List AlgoraCand))
    (incl : Bool) (store : Store) (g : Nat) :
    ∃ p, collectAlgoraPhase now alFetch incl store g = Except.ok p ∧
      p.2.algoraInvoked = incl := by
  unfold collectAlgoraPhase
  cases incl with
  | false => exact ⟨_, rfl, rfl⟩
  | true =>
    cases alFetch with
    | error e => exact ⟨_, rfl, rfl⟩
    | ok items => exact ⟨_, rfl, rfl⟩

theorem collectAlgoraPhase_sub (now : Int) (alFetch : Except PyErr (List AlgoraCand))
    (incl : Bool) (store : Store) (g : Nat) (p : Store × CollectTrace)
    (h : collectAlgoraPhase now alFetch incl store g = Except.ok p) :
    ∀ r ∈ p.1.pending, r ∈ store.pending ∨ r.source = "algora" := by
  unfold collectAlgoraPhase at h
  cases incl with
  | false =>
    simp only [Bool.false_eq_true, if_false] at h
    have := Except.ok.inj h
    subst this
    intro r hr
    exact Or.inl hr
  | true =>
    simp only [if_true] at h
    cases alFetch with
    | error e =>
      have := Except.ok.inj h
      subst this
      intro r hr
      exact Or.inl hr
    | ok items =>
      have := Except.ok.inj h
      subst this
      intro r hr
      exact foldl_upsertAl_sub now items (store, 0) r hr

def c8err : PyErr := ⟨false⟩

def c8al : AlgoraCand :=
  ⟨"algora:1", "T", "u", "o/r", ["USD 10.00"], some (mkRat 10 1), some "USD", 0⟩

/-- C8 counterexample: a GitHub-path exception that is not a
`requests.HTTPError` (e.g. a timeout or a missing key) propagates out of
`collect`: the run ends in that error and the Algora adapter — although
it has a pending candidate — is never invoked. -/
theorem collect_isolation_cex :
    collect 0 (Except.error c8err) (Except.ok [c8al]) true ⟨[], [], 0⟩ =
      Except.error c8err ∧
    c8err.isHTTPError = false := ⟨rfl, rfl⟩

/-- C8 (amended): exception isolation in `collect` is asymmetric.  A
`requests.HTTPError` from the GitHub path is caught and the Algora
adapter still runs; any other GitHub-path exception propagates out of
`collect`, skipping Algora; every exception from the Algora path is
caught (`except Exception`), so the run still completes with the Algora
adapter having been invoked. -/
theorem collect_isolation_amended (now : Int) (e : PyErr) (ghItems : List GhItem)
    (eAl : PyErr) (alFetch : Except PyErr (List AlgoraCand)) (store : Store) :
    (e.isHTTPError = true →
      ∃ p, collect now (Except.error e) alFetch true store = Except.ok p ∧
        p.2.algoraInvoked = true) ∧
    (e.isHTTPError = false →
      collect now (Except.error e) alFetch true store = Except.error e) ∧
    (∃ p, collect now (Except.ok ghItems) (Except.error eAl) true store = Except.ok p ∧
      p.2.algoraInvoked = true) := by
  refine ⟨?_, ?_, ?_⟩
  · intro he
    obtain ⟨p, hp, hi⟩ := collectAlgoraPhase_ok now alFetch true store 0
    refine ⟨p, ?_, hi⟩
    show (if e.isHTTPError = true then collectAlgoraPhase now alFetch true store 0
      else Except.error e) = Except.ok p
    rw [he, if_pos rfl]
    exact hp
  · intro he
    show (if e.isHTTPError = true then collectAlgoraPhase now alFetch true store 0
      else Except.error e) = Except.error e
    rw [he]
    simp
  · obtain ⟨p, hp, hi⟩ := collectAlgoraPhase_ok now (Except.error eAl) true
      ((ghItems.foldl (upsertGh now) (store, 0)).1)
      ((ghItems.foldl (upsertGh now) (store, 0)).2)
    exact ⟨p, hp, hi⟩

/-- C8 witness: an HTTPError on the GitHub path is caught and the Algora
phase still runs. -/
theorem collect_isolation_amended_witness :
    (⟨true⟩ : PyErr).isHTTPError = true ∧
    (∃ p, collect 0 (Except.error ⟨true⟩) (Except.ok []) true ⟨[], [], 0⟩ =
        Except.ok p ∧ p.2.algoraInvoked = true) :=
  ⟨rfl, (collect_isolation_amended 0 ⟨true⟩ [] ⟨true⟩ (Except.ok []) ⟨[], [], 0⟩).1 rfl⟩

/-- C10: every row inserted through the GitHub path of `collect` gets
`created_at` equal to the wall-clock time of insertion (the default of
`upsert_pending`), not the issue upstream creation timestamp: in any
successful collect run, each row of the resulting store that is new and
tagged `"github"` carries `created_at = now`. -/
theorem github_created_at_ingestion_time (now : Int) (ghItems : List GhItem)
    (alFetch : Except PyErr (List AlgoraCand)) (incl : Bool) (store : Store)
    (p : Store × CollectTrace)
    (h : collect now (Except.ok ghItems) alFetch incl store = Except.ok p) :
    ∀ r ∈ p.1.pending, r ∉ store.pending → r.source = "github" → r.created_at = now := by
  intro r hr hnotin hsrc
  have hphase : collectAlgoraPhase now alFetch incl
      ((ghItems.foldl (upsertGh now) (store, 0)).1)
      ((ghItems.foldl (upsertGh now) (store, 0)).2) = Except.ok p := h
  rcases collectAlgoraPhase_sub now alFetch incl _ _ p hphase r hr with h1 | h1
  · rcases foldl_upsertGh_sub now ghItems (store, 0) r h1 with h2 | h2
    · exact absurd h2 hnotin
    · exact h2.2
  · rw [hsrc] at h1
    exact absurd h1 (by decide)

def c10item : GhItem := ⟨42, "T", "http://u", "https://api.github.com/repos/o/r", ["bounty"]⟩

def c10row : Row := ⟨0, "github", "gh:42", "T", "http://u", "o/r", ["bounty"], "",
  none, none, 5, 0⟩

def c10result : Store × CollectTrace := (⟨[c10row], [], 1⟩, ⟨true, 1, 0⟩)

/-- C10 witness: ingesting one GitHub item at wall-clock time 5 stores
it with `created_at = 5`. -/
theorem github_created_at_ingestion_time_witness :
    collect 5 (Except.ok [c10item]) (Except.ok []) true ⟨[], [], 0⟩ =
      Except.ok c10result ∧
    (∀ r ∈ c10result.1.pending, r ∉ (⟨[], [], 0⟩ : Store).pending →
      r.source = "github" → r.created_at = 5) :=
  ⟨rfl, github_created_at_ingestion_time 5 [c10item] (Except.ok []) true ⟨[], [], 0⟩
    c10result rfl⟩

def c9row : Row := ⟨3, "algora", "k", "T", "u", "", ["EUR 50"], "", none, none, 0, 0⟩

/-- C9 counterexample: the label `"EUR 50"` has the claimed
`"<CUR> <amount>"` shape and its amount part parses, but the code scans
only labels starting with `"USD "`, so the record renders with no
amount prefix at all. -/
theorem bullet_amount_cex :
    c9row.amount = none ∧ c9row.labels = ["EUR 50"] ∧
    pyFloat (pySplitRest "EUR 50") = some (mkRat 50 1) ∧
    bulletAmount c9row = "" ∧
    bullet c9row = "• T\n  u (00:00Z)" := by decide

/-- C9 (amended): the amount prefix is always a dollar sign followed by
the half-even integer rounding of the value; it derives from the numeric
`amount` field when present and otherwise from the first label starting
with `"USD "` whose remainder parses as a float — labels carrying any
other currency code are ignored; when neither source yields a value the
prefix is omitted and the bullet still renders (title, URL and
timestamp only). -/
theorem bullet_amount_amended (r : Row) :
    (∀ a, r.amount = some a → bulletAmount r = fmtDollar a) ∧
    (r.amount = none → bulletAmount r = amountFromLabels r.labels) ∧
    (∀ labs : List String, (∀ lab ∈ labs, strStartsWith lab "USD " = false) →
      amountFromLabels labs = "") ∧
    (∀ (lab : String) (rest : List String) (v : Rat),
      strStartsWith lab "USD " = true → pyFloat (pySplitRest lab) = some v →
      amountFromLabels (lab :: rest) = fmtDollar v) ∧
    (∀ v : Rat, fmtDollar v = "$" ++ toString (roundHalfEven v)) ∧
    (bulletAmount r = "" →
      bullet r = ("• " ++ "" ++ ((if r.repo == "" then "" else r.repo ++ " — ") ++
        r.title)) ++ ("\n  " ++ r.url ++ " (" ++ fmtHHMMZ r.created_at ++ ")")) := by
  refine ⟨?_, ?_, ?_, ?_, fun v => rfl, ?_⟩
  · intro a ha
    unfold bulletAmount
    rw [ha]
  · intro ha
    unfold bulletAmount
    rw [ha]
  · intro labs h
    induction labs with
    | nil => rfl
    | cons lab rest ih =>
      unfold amountFromLabels
      rw [h lab (List.mem_cons_self lab rest)]
      simp only [Bool.false_eq_true, if_false]
      exact ih fun x hx => h x (List.mem_cons_of_mem lab hx)
  · intro lab rest v hstart hparse
    unfold amountFromLabels
    rw [hstart, hparse]
    simp
  · intro h0
    unfold bullet
    rw [h0]
    simp [String.append_assoc]

def c9wrow : Row := ⟨4, "algora", "k2", "T2", "u2", "", ["USD 250.00"], "",
  none, none, 0, 0⟩

/-- C9 witness: a record without a numeric amount whose `"USD 250.00"`
label yields the `$250` prefix through the label scan. -/
theorem bullet_amount_amended_witness :
    c9wrow.amount = none ∧
    bulletAmount c9wrow = amountFromLabels c9wrow.labels ∧
    strStartsWith "USD 250.00" "USD " = true ∧
    pyFloat (pySplitRest "USD 250.00") = some (mkRat 250 1) ∧
    amountFromLabels ("USD 250.00" :: []) = fmtDollar (mkRat 250 1) :=
  ⟨rfl, (bullet_amount_amended c9wrow).2.1 rfl, by decide, by decide,
    (bullet_amount_amended c9wrow).2.2.2.1 "USD 250.00" [] (mkRat 250 1)
      (by decide) (by decide)⟩

end Collector
